import Mathlib

/-!
Shallow embedding of the SharpEdge-Quant backtesting core
(`src/cpp/backtester.cpp`, `src/cpp/performance_metrics.cpp`,
`src/cpp/trade_simulator.cpp`).

Doubles are modelled as exact rationals (`ℚ`) for the engine's
add/sub/mul/div/floor arithmetic, and as reals (`ℝ`) where the code
takes square roots (Sharpe/Sortino).  `static_cast<int>` on a
non-negative double is floor; on a negative one it truncates toward
zero, which `ratTrunc` captures.
-/

namespace SharpEdge

/-- Mirrors `struct Signal` of `backtester.h`: one row of the input series. -/
structure Signal where
  timestamp : String
  price : ℚ
  signal : Int
deriving DecidableEq

instance : Inhabited Signal := ⟨⟨"", 0, 0⟩⟩

/-- Mirrors `struct EquityPoint` of `backtester.h`. -/
structure EquityPoint where
  timestamp : String
  equity : ℚ
deriving DecidableEq

instance : Inhabited EquityPoint := ⟨⟨"", 0⟩⟩

/-- Mirrors `struct Trade` of `backtester.h`. -/
structure Trade where
  timestamp : String
  action : String
  shares : Int
  price : ℚ
  value : ℚ
deriving DecidableEq

instance : Inhabited Trade := ⟨⟨"", "", 0, 0, 0⟩⟩

/-- C++ `static_cast<int>` on a double: truncation toward zero. -/
def ratTrunc (q : ℚ) : Int := if 0 ≤ q then ⌊q⌋ else ⌈q⌉

/-- Latency step count: `static_cast<size_t>(m_latency * 10)` (non-negative latency). -/
def latSteps (latency : ℚ) : Nat := (latency * 10).floor.toNat

/-- State of the member fields of a `Backtester` object. -/
structure Backtester where
  m_initialCapital : ℚ
  m_cash : ℚ
  m_position : Int
  m_slippage : ℚ
  m_latency : ℚ
  m_signals : List Signal
  m_equity : List EquityPoint
  m_trades : List Trade
  m_drawdowns : List ℚ
  m_returns : List ℚ
deriving DecidableEq

/-- Mirrors `Backtester::Backtester(double, double, double)`. -/
def Backtester.make (initialCapital slippage latency : ℚ) : Backtester :=
  ⟨initialCapital, initialCapital, 0, slippage, latency, [], [], [], [], []⟩

/-- Mirrors `Backtester::Backtester()`: capital 10000, slippage 0.0005, latency 0. -/
def Backtester.makeDefault : Backtester := Backtester.make 10000 (5 / 10000) 0

/-- Mirrors `Backtester::loadSignalsFromCSV` after the file has been parsed into
rows (file access is an external collaborator): clears `m_signals`, `m_equity`,
`m_drawdowns`, resets cash and position, and stores the parsed rows.
Note the C++ clears neither `m_trades` nor `m_returns` here. -/
def Backtester.loadSignals (bt : Backtester) (rows : List Signal) : Backtester :=
  { bt with
      m_signals := rows
      m_equity := []
      m_drawdowns := []
      m_cash := bt.m_initialCapital
      m_position := 0 }

/-- Local state of the loop in `Backtester::runBacktest` (members being
mutated plus the local variables `lastEquity`, `highWaterMark`, `currentSignal`). -/
structure LoopState where
  cash : ℚ
  position : Int
  currentSignal : Int
  lastEquity : ℚ
  highWaterMark : ℚ
  equity : List EquityPoint
  trades : List Trade
  drawdowns : List ℚ
  returns : List ℚ
deriving DecidableEq

/-- Loop state at the top of `Backtester::runBacktest` (members freshly reset,
locals initialised, returns accumulated separately since `m_returns` is not cleared). -/
def initState (c : ℚ) : LoopState := ⟨c, 0, 0, c, c, [], [], [], []⟩

/-- Effective execution price for a transition at index `i` in
`Backtester::runBacktest`: latency price lookup (clamped to the last index)
followed by multiplicative slippage, buys paying `1 + s`, sells receiving `1 - s`. -/
def effPrice (sigs : List Signal) (slippage latency : ℚ) (i : Nat) : ℚ :=
  let sig := sigs.getD i default
  let base :=
    if 0 < latency then
      (sigs.getD (min (i + latSteps latency) (sigs.length - 1)) default).price
    else sig.price
  if sig.signal = 1 then base * (1 + slippage) else base * (1 - slippage)

/-- Trade-execution block of `Backtester::runBacktest` (lines 106-137): given the
current cash, position and trade log, returns their values after the transition
at index `i`.  A buy fires only when flat and only if at least one share is
affordable; a sell fires only when long. -/
def execTransition (sigs : List Signal) (slippage latency : ℚ) (i : Nat)
    (cash : ℚ) (position : Int) (trades : List Trade) : ℚ × Int × List Trade :=
  let sig := sigs.getD i default
  let ep := effPrice sigs slippage latency i
  if sig.signal = 1 ∧ position = 0 then
    let shares := ratTrunc (cash / ep)
    if 0 < shares then
      (cash - shares * ep, shares,
        trades ++ [⟨sig.timestamp, "BUY", shares, ep, shares * ep⟩])
    else (cash, position, trades)
  else if sig.signal = 0 ∧ 0 < position then
    (cash + position * ep, 0,
      trades ++ [⟨sig.timestamp, "SELL", position, ep, position * ep⟩])
  else (cash, position, trades)

/-- Cash, position and trade log after the `if (signal.signal != currentSignal)`
block of one iteration of the loop in `Backtester::runBacktest`. -/
def nextCPT (sigs : List Signal) (slippage latency : ℚ) (st : LoopState) (i : Nat) :
    ℚ × Int × List Trade :=
  if (sigs.getD i default).signal ≠ st.currentSignal then
    execTransition sigs slippage latency i st.cash st.position st.trades
  else (st.cash, st.position, st.trades)

/-- One full iteration of the loop in `Backtester::runBacktest` (lines 85-160):
possible transition, then mark-to-market equity at the unadjusted record price,
high-water-mark update, drawdown, and per-step return. -/
def stepFn (sigs : List Signal) (slippage latency : ℚ) (st : LoopState) (i : Nat) :
    LoopState :=
  let sig := sigs.getD i default
  let t := nextCPT sigs slippage latency st i
  let eq := t.1 + (if 0 < t.2.1 then (t.2.1 : ℚ) * sig.price else 0)
  let hwm := max st.highWaterMark eq
  { cash := t.1
    position := t.2.1
    currentSignal := if sig.signal ≠ st.currentSignal then sig.signal else st.currentSignal
    lastEquity := eq
    highWaterMark := hwm
    equity := st.equity ++ [⟨sig.timestamp, eq⟩]
    trades := t.2.2
    drawdowns := st.drawdowns ++ [(hwm - eq) / hwm * 100]
    returns := st.returns ++ [eq / st.lastEquity - 1] }

/-- Loop state of `Backtester::runBacktest` after processing records `0..k-1`. -/
def runUpTo (sigs : List Signal) (slippage latency c : ℚ) (k : Nat) : LoopState :=
  (List.range k).foldl (stepFn sigs slippage latency) (initState c)

/-- Mirrors `Backtester::runBacktest`: a no-op on an empty signal list, otherwise
resets the run members and folds the loop over every record.  `m_returns` is
appended to rather than replaced because the C++ never clears it. -/
def Backtester.runBacktest (bt : Backtester) : Backtester :=
  if bt.m_signals = [] then bt
  else
    let fin := runUpTo bt.m_signals bt.m_slippage bt.m_latency bt.m_initialCapital
      bt.m_signals.length
    { bt with
        m_cash := fin.cash
        m_position := fin.position
        m_equity := fin.equity
        m_trades := fin.trades
        m_drawdowns := fin.drawdowns
        m_returns := bt.m_returns ++ fin.returns }

/-- Mirrors `struct BacktestResults` of `backtester.h` (all members zero-initialised).
The Sharpe field involves a square root, so the structure lives over `ℝ`. -/
structure BacktestResults where
  finalEquity : ℝ
  finalReturn : ℝ
  maxDrawdown : ℝ
  sharpeRatio : ℝ
  totalTrades : Int

instance : Inhabited BacktestResults := ⟨⟨0, 0, 0, 0, 0⟩⟩

/-- Value of `*std::max_element(l.begin(), l.end())` for a non-empty list
(the only way `Backtester::getResults` uses it). -/
def maxElem (l : List ℚ) : ℚ := l.foldl max (l.headD 0)

/-- Mirrors `Backtester::getResults`: default results on an empty equity path,
otherwise final equity/return, max element of the stored drawdowns, and an
annualized Sharpe ratio from the stored returns (zero when the standard
deviation is not positive). -/
noncomputable def Backtester.getResults (bt : Backtester) : BacktestResults :=
  if bt.m_equity = [] then ⟨0, 0, 0, 0, 0⟩
  else
    let finalEquity : ℚ := (bt.m_equity.getLastD default).equity
    let totalReturn : ℚ := bt.m_returns.sum
    let totalRisk : ℚ := (bt.m_returns.map (fun r => r * r)).sum
    let meanReturn : ℚ := totalReturn / bt.m_returns.length
    let stdDev : ℝ := Real.sqrt ((totalRisk / bt.m_returns.length - meanReturn * meanReturn : ℚ) : ℝ)
    { finalEquity := (finalEquity : ℝ)
      finalReturn := ((finalEquity / bt.m_initialCapital - 1 : ℚ) : ℝ) * 100
      maxDrawdown := ((maxElem bt.m_drawdowns : ℚ) : ℝ)
      sharpeRatio :=
        if 0 < stdDev then ((meanReturn : ℝ) * 252) / (stdDev * Real.sqrt 252) else 0
      totalTrades := bt.m_trades.length }

/-! ### Performance analyzer (`performance_metrics.cpp`) -/

/-- Loop of `PerformanceMetrics::calculateMaxDrawdown` (lines 23-30): running
peak and running maximum drawdown over the equity values. -/
def mdGo : ℚ → ℚ → List ℚ → ℚ
  | _, maxDD, [] => maxDD
  | peak, maxDD, v :: vs =>
    let peak2 := if peak < v then v else peak
    mdGo peak2 (max maxDD ((peak2 - v) / peak2 * 100)) vs

/-- Mirrors `PerformanceMetrics::calculateMaxDrawdown`: 0 on an empty list,
otherwise the loop seeded with peak = first value and max drawdown = 0. -/
def calculateMaxDrawdown (equityValues : List ℚ) : ℚ :=
  match equityValues with
  | [] => 0
  | e :: _ => mdGo e 0 equityValues

/-- Population standard deviation computed by `PerformanceMetrics::calculateSharpeRatio`
(lines 41-49): square root of the mean squared deviation from the mean. -/
noncomputable def sharpeStdDev (returns : List ℝ) : ℝ :=
  let mean := returns.sum / returns.length
  Real.sqrt ((returns.map (fun r => (r - mean) * (r - mean))).sum / returns.length)

/-- Mirrors `PerformanceMetrics::calculateSharpeRatio`: 0 on an empty series or a
zero standard deviation, otherwise the annualized ratio. -/
noncomputable def calculateSharpeRatio (returns : List ℝ) (riskFreeRate : ℝ) : ℝ :=
  if returns = [] then 0
  else
    let mean := returns.sum / returns.length
    let stdDev := sharpeStdDev returns
    if stdDev = 0 then 0
    else (mean - riskFreeRate / 252) / stdDev * Real.sqrt 252

/-- Mirrors `PerformanceMetrics::calculateSortinoRatio`: 0 on an empty series or
when no return is negative, otherwise the ratio with downside-only deviation. -/
noncomputable def calculateSortinoRatio (returns : List ℝ) (riskFreeRate : ℝ) : ℝ :=
  if returns = [] then 0
  else
    let mean := returns.sum / returns.length
    let downside := returns.filter (fun r => r < 0)
    if downside.length = 0 then 0
    else
      let downsideDeviation := Real.sqrt ((downside.map (fun r => r * r)).sum / downside.length)
      (mean - riskFreeRate / 252) / downsideDeviation * Real.sqrt 252

/-! ### Standalone helper (`trade_simulator.cpp`) -/

/-- Mirrors `TradeSimulator::applyLatency`: returns the original record unless a
positive latency applies and a strictly later record exists, in which case only
the price is replaced by the delayed one. -/
def applyLatency (latency : ℚ) (signals : List Signal) (i : Nat) : Signal :=
  let original := signals.getD i default
  if latency ≤ 0 ∨ signals = [] ∨ signals.length - 1 ≤ i then original
  else
    let delayedIndex := min (i + latSteps latency) (signals.length - 1)
    { original with price := (signals.getD delayedIndex default).price }

/-- Loop state of `TradeSimulator::simulateTrades`. -/
structure SimState where
  currentPosition : Int
  lastSignal : Int
  trades : List Trade
deriving DecidableEq

/-- One iteration of the loop in `TradeSimulator::simulateTrades` (lines 47-84).
Note the fixed-notional sizing `static_cast<int>(10000.0 / tradePrice)` and the
absence of a `shares > 0` guard. -/
def simStep (slippage latency : ℚ) (signals : List Signal) (st : SimState) (i : Nat) :
    SimState :=
  let effectiveSignal := applyLatency latency signals i
  if effectiveSignal.signal ≠ st.lastSignal then
    if effectiveSignal.signal = 1 ∧ st.currentPosition = 0 then
      let tradePrice := effectiveSignal.price * (1 + slippage)
      let shares := ratTrunc (10000 / tradePrice)
      { currentPosition := shares
        lastSignal := effectiveSignal.signal
        trades := st.trades ++
          [⟨effectiveSignal.timestamp, "BUY", shares, tradePrice, shares * tradePrice⟩] }
    else if effectiveSignal.signal = 0 ∧ 0 < st.currentPosition then
      let tradePrice := effectiveSignal.price * (1 - slippage)
      { currentPosition := 0
        lastSignal := effectiveSignal.signal
        trades := st.trades ++
          [⟨effectiveSignal.timestamp, "SELL", st.currentPosition, tradePrice,
            st.currentPosition * tradePrice⟩] }
    else { st with lastSignal := effectiveSignal.signal }
  else st

/-- Mirrors `TradeSimulator::simulateTrades`: empty input gives an empty log,
otherwise the loop is folded over every index. -/
def simulateTrades (slippage latency : ℚ) (signals : List Signal) : List Trade :=
  if signals = [] then []
  else ((List.range signals.length).foldl (simStep slippage latency signals) ⟨0, 0, []⟩).trades

/-! ### Structural lemmas about the engine loop -/

lemma runUpTo_zero (sigs : List Signal) (s L c : ℚ) :
    runUpTo sigs s L c 0 = initState c := rfl

lemma runUpTo_succ (sigs : List Signal) (s L c : ℚ) (k : Nat) :
    runUpTo sigs s L c (k + 1) = stepFn sigs s L (runUpTo sigs s L c k) k := by
  simp [runUpTo, List.range_succ]

lemma stepFn_cash (sigs : List Signal) (s L : ℚ) (st : LoopState) (i : Nat) :
    (stepFn sigs s L st i).cash = (nextCPT sigs s L st i).1 := rfl

lemma stepFn_position (sigs : List Signal) (s L : ℚ) (st : LoopState) (i : Nat) :
    (stepFn sigs s L st i).position = (nextCPT sigs s L st i).2.1 := rfl

lemma stepFn_trades (sigs : List Signal) (s L : ℚ) (st : LoopState) (i : Nat) :
    (stepFn sigs s L st i).trades = (nextCPT sigs s L st i).2.2 := rfl

lemma stepFn_currentSignal (sigs : List Signal) (s L : ℚ) (st : LoopState) (i : Nat) :
    (stepFn sigs s L st i).currentSignal =
      if (sigs.getD i default).signal ≠ st.currentSignal then (sigs.getD i default).signal
      else st.currentSignal := rfl

lemma stepFn_lastEquity (sigs : List Signal) (s L : ℚ) (st : LoopState) (i : Nat) :
    (stepFn sigs s L st i).lastEquity =
      (stepFn sigs s L st i).cash +
        (if 0 < (stepFn sigs s L st i).position then
          ((stepFn sigs s L st i).position : ℚ) * (sigs.getD i default).price
        else 0) := rfl

lemma stepFn_highWaterMark (sigs : List Signal) (s L : ℚ) (st : LoopState) (i : Nat) :
    (stepFn sigs s L st i).highWaterMark =
      max st.highWaterMark (stepFn sigs s L st i).lastEquity := rfl

lemma stepFn_equity (sigs : List Signal) (s L : ℚ) (st : LoopState) (i : Nat) :
    (stepFn sigs s L st i).equity =
      st.equity ++ [⟨(sigs.getD i default).timestamp, (stepFn sigs s L st i).lastEquity⟩] := rfl

lemma stepFn_drawdowns (sigs : List Signal) (s L : ℚ) (st : LoopState) (i : Nat) :
    (stepFn sigs s L st i).drawdowns =
      st.drawdowns ++
        [((stepFn sigs s L st i).highWaterMark - (stepFn sigs s L st i).lastEquity) /
          (stepFn sigs s L st i).highWaterMark * 100] := rfl

lemma stepFn_returns (sigs : List Signal) (s L : ℚ) (st : LoopState) (i : Nat) :
    (stepFn sigs s L st i).returns =
      st.returns ++ [(stepFn sigs s L st i).lastEquity / st.lastEquity - 1] := rfl

lemma runUpTo_equity_length (sigs : List Signal) (s L c : ℚ) (k : Nat) :
    (runUpTo sigs s L c k).equity.length = k := by
  induction k with
  | zero => rfl
  | succ k ih => rw [runUpTo_succ, stepFn_equity]; simp [ih]

lemma runUpTo_drawdowns_length (sigs : List Signal) (s L c : ℚ) (k : Nat) :
    (runUpTo sigs s L c k).drawdowns.length = k := by
  induction k with
  | zero => rfl
  | succ k ih => rw [runUpTo_succ, stepFn_drawdowns]; simp [ih]

lemma runUpTo_returns_length (sigs : List Signal) (s L c : ℚ) (k : Nat) :
    (runUpTo sigs s L c k).returns.length = k := by
  induction k with
  | zero => rfl
  | succ k ih => rw [runUpTo_succ, stepFn_returns]; simp [ih]

lemma runBacktest_of_ne (bt : Backtester) (h : bt.m_signals ≠ []) :
    bt.runBacktest =
      { bt with
          m_cash := (runUpTo bt.m_signals bt.m_slippage bt.m_latency bt.m_initialCapital
            bt.m_signals.length).cash
          m_position := (runUpTo bt.m_signals bt.m_slippage bt.m_latency bt.m_initialCapital
            bt.m_signals.length).position
          m_equity := (runUpTo bt.m_signals bt.m_slippage bt.m_latency bt.m_initialCapital
            bt.m_signals.length).equity
          m_trades := (runUpTo bt.m_signals bt.m_slippage bt.m_latency bt.m_initialCapital
            bt.m_signals.length).trades
          m_drawdowns := (runUpTo bt.m_signals bt.m_slippage bt.m_latency bt.m_initialCapital
            bt.m_signals.length).drawdowns
          m_returns := bt.m_returns ++ (runUpTo bt.m_signals bt.m_slippage bt.m_latency
            bt.m_initialCapital bt.m_signals.length).returns } := by
  simp [Backtester.runBacktest, h]

/-- Case analysis of the transition block: either cash, position and trade log
are all unchanged, or a BUY fires from a flat position with a positive share
count, or a SELL fires from a long position. -/
lemma nextCPT_cases (sigs : List Signal) (s L : ℚ) (st : LoopState) (i : Nat) :
    nextCPT sigs s L st i = (st.cash, st.position, st.trades) ∨
    ((sigs.getD i default).signal = 1 ∧ st.position = 0 ∧
      0 < ratTrunc (st.cash / effPrice sigs s L i) ∧
      nextCPT sigs s L st i =
        (st.cash - ratTrunc (st.cash / effPrice sigs s L i) * effPrice sigs s L i,
          ratTrunc (st.cash / effPrice sigs s L i),
          st.trades ++ [⟨(sigs.getD i default).timestamp, "BUY",
            ratTrunc (st.cash / effPrice sigs s L i), effPrice sigs s L i,
            ratTrunc (st.cash / effPrice sigs s L i) * effPrice sigs s L i⟩])) ∨
    ((sigs.getD i default).signal = 0 ∧ 0 < st.position ∧
      nextCPT sigs s L st i = (st.cash + st.position * effPrice sigs s L i, 0,
        st.trades ++ [⟨(sigs.getD i default).timestamp, "SELL", st.position, effPrice sigs s L i,
          st.position * effPrice sigs s L i⟩])) := by
  simp only [nextCPT, execTransition]
  split_ifs with h1 h2 h3 h4
  · exact Or.inr (Or.inl ⟨h2.1, h2.2, h3, rfl⟩)
  · exact Or.inl rfl
  · exact Or.inr (Or.inr ⟨h4.1, h4.2, rfl⟩)
  · exact Or.inl rfl
  · exact Or.inl rfl

/-- Invariant tying the trade log to the position: the position is a
non-negative share count, it is strictly positive exactly when the trade log
has odd length, and the log's sides follow the BUY/SELL parity pattern. -/
def TradesOK (st : LoopState) : Prop :=
  0 ≤ st.position ∧ (st.trades.length % 2 = 1 ↔ 0 < st.position) ∧
  ∀ k, k < st.trades.length →
    (st.trades.getD k default).action = if k % 2 = 0 then "BUY" else "SELL"

lemma tradesOK_init (c : ℚ) : TradesOK (initState c) := by
  refine ⟨le_refl 0, by simp [initState], ?_⟩
  intro k hk
  simp [initState] at hk

lemma tradesOK_step (sigs : List Signal) (s L : ℚ) (st : LoopState) (i : Nat)
    (h : TradesOK st) : TradesOK (stepFn sigs s L st i) := by
  obtain ⟨hpos, hparity, hact⟩ := h
  rcases nextCPT_cases sigs s L st i with hc | ⟨hsig, hp0, hsh, hc⟩ | ⟨hsig, hp, hc⟩
  · exact ⟨by rw [stepFn_position, hc]; exact hpos,
      by rw [stepFn_position, stepFn_trades, hc]; exact hparity,
      by rw [stepFn_trades, hc]; exact hact⟩
  · have hlen : st.trades.length % 2 = 0 := by
      rcases Nat.mod_two_eq_zero_or_one st.trades.length with h0 | h1
      · exact h0
      · exact absurd (hparity.mp h1) (by simp [hp0])
    refine ⟨by rw [stepFn_position, hc]; exact le_of_lt hsh, ?_, ?_⟩
    · rw [stepFn_position, stepFn_trades, hc]
      simp only [List.length_append, List.length_cons, List.length_nil]
      constructor
      · intro _; exact hsh
      · intro _; omega
    · rw [stepFn_trades, hc]
      intro k hk
      simp only [List.length_append, List.length_cons, List.length_nil] at hk
      rcases Nat.lt_or_ge k st.trades.length with hlt | hge
      · rw [List.getD_append _ _ _ _ hlt]; exact hact k hlt
      · have hkeq : k = st.trades.length := by omega
        rw [List.getD_append_right _ _ _ _ hge, hkeq]
        simp [hlen]
  · have hlen : st.trades.length % 2 = 1 := hparity.mpr hp
    refine ⟨by rw [stepFn_position, hc], ?_, ?_⟩
    · rw [stepFn_position, stepFn_trades, hc]
      simp only [List.length_append, List.length_cons, List.length_nil]
      constructor
      · intro hcon; omega
      · intro hcon; exact absurd hcon (by simp)
    · rw [stepFn_trades, hc]
      intro k hk
      simp only [List.length_append, List.length_cons, List.length_nil] at hk
      rcases Nat.lt_or_ge k st.trades.length with hlt | hge
      · rw [List.getD_append _ _ _ _ hlt]; exact hact k hlt
      · have hkeq : k = st.trades.length := by omega
        rw [List.getD_append_right _ _ _ _ hge, hkeq]
        have : ¬ st.trades.length % 2 = 0 := by omega
        simp [this]

lemma tradesOK_runUpTo (sigs : List Signal) (s L c : ℚ) (k : Nat) :
    TradesOK (runUpTo sigs s L c k) := by
  induction k with
  | zero => exact tradesOK_init c
  | succ k ih => rw [runUpTo_succ]; exact tradesOK_step sigs s L _ k ih

lemma runUpTo_equity_getD_stable (sigs : List Signal) (s L c : ℚ) (i : Nat) (d : EquityPoint) :
    ∀ k, i < k →
      (runUpTo sigs s L c k).equity.getD i d = (runUpTo sigs s L c (i + 1)).equity.getD i d := by
  intro k
  induction k with
  | zero => intro h; omega
  | succ k ih =>
    intro h
    rcases Nat.lt_or_ge i k with hik | hik
    · rw [runUpTo_succ, stepFn_equity,
        List.getD_append _ _ _ _ (by rw [runUpTo_equity_length]; exact hik), ih hik]
    · have hk : k = i := by omega
      rw [hk]

lemma runUpTo_equity_getD_last (sigs : List Signal) (s L c : ℚ) (i : Nat) (d : EquityPoint) :
    (runUpTo sigs s L c (i + 1)).equity.getD i d =
      ⟨(sigs.getD i default).timestamp, (runUpTo sigs s L c (i + 1)).lastEquity⟩ := by
  conv_lhs => rw [runUpTo_succ, stepFn_equity]
  rw [List.getD_append_right _ _ _ _ (by rw [runUpTo_equity_length])]
  rw [runUpTo_equity_length]
  simp only [Nat.sub_self, List.getD_cons_zero]
  rw [runUpTo_succ]

/-- Equity recorded at step `i` in terms of the cash and position held right
after step `i` and the unadjusted record price. -/
lemma runUpTo_lastEquity_eq (sigs : List Signal) (s L c : ℚ) (i : Nat) :
    (runUpTo sigs s L c (i + 1)).lastEquity =
      (runUpTo sigs s L c (i + 1)).cash +
        (if 0 < (runUpTo sigs s L c (i + 1)).position then
          ((runUpTo sigs s L c (i + 1)).position : ℚ) * (sigs.getD i default).price
        else 0) := by
  conv_lhs => rw [runUpTo_succ, stepFn_lastEquity]
  rw [runUpTo_succ]

/-! ### Numeric invariant: non-negative cash, positive high-water mark, bounded drawdowns -/

/-- Numeric facts preserved along a run with positive prices, positive initial
capital, and slippage in `[0, 1]`. -/
def NumOK (c : ℚ) (st : LoopState) : Prop :=
  0 ≤ st.cash ∧ 0 ≤ st.position ∧ c ≤ st.highWaterMark ∧
  ∀ d ∈ st.drawdowns, 0 ≤ d ∧ d ≤ 100

lemma base_price_pos (sigs : List Signal) (i : Nat) (hi : i < sigs.length)
    (hp : ∀ x ∈ sigs, 0 < x.price) : 0 < (sigs.getD i default).price := by
  rw [List.getD_eq_getElem _ _ hi]
  exact hp _ (List.getElem_mem hi)

/-- Base price used by a transition at index `i`: the latency-delayed record's
price when a positive latency applies, and the current record's price otherwise. -/
def basePrice (sigs : List Signal) (L : ℚ) (i : Nat) : ℚ :=
  if 0 < L then (sigs.getD (min (i + latSteps L) (sigs.length - 1)) default).price
  else (sigs.getD i default).price

/-- Unfolded form of `effPrice`. -/
lemma effPrice_def (sigs : List Signal) (s L : ℚ) (i : Nat) :
    effPrice sigs s L i =
      if (sigs.getD i default).signal = 1 then basePrice sigs L i * (1 + s)
      else basePrice sigs L i * (1 - s) := rfl

lemma base_of_effPrice_pos (sigs : List Signal) (L : ℚ) (i : Nat) (hi : i < sigs.length)
    (hp : ∀ x ∈ sigs, 0 < x.price) : 0 < basePrice sigs L i := by
  have hne : sigs.length - 1 < sigs.length := by omega
  unfold basePrice
  split_ifs with hL
  · exact base_price_pos sigs _ (lt_of_le_of_lt (min_le_right _ _) hne) hp
  · exact base_price_pos sigs i hi hp

lemma effPrice_pos_of_buy (sigs : List Signal) (s L : ℚ) (i : Nat) (hi : i < sigs.length)
    (hp : ∀ x ∈ sigs, 0 < x.price) (hs0 : 0 ≤ s)
    (hsig : (sigs.getD i default).signal = 1) : 0 < effPrice sigs s L i := by
  rw [effPrice_def, if_pos hsig]
  have h1s : (0 : ℚ) < 1 + s := by linarith
  exact mul_pos (base_of_effPrice_pos sigs L i hi hp) h1s

lemma effPrice_nonneg (sigs : List Signal) (s L : ℚ) (i : Nat) (hi : i < sigs.length)
    (hp : ∀ x ∈ sigs, 0 < x.price) (hs0 : 0 ≤ s) (hs1 : s ≤ 1) :
    0 ≤ effPrice sigs s L i := by
  rw [effPrice_def]
  have h1s : (0 : ℚ) ≤ 1 + s := by linarith
  have h1s' : (0 : ℚ) ≤ 1 - s := by linarith
  have hbase := base_of_effPrice_pos sigs L i hi hp
  split_ifs with hsig
  · exact mul_nonneg (le_of_lt hbase) h1s
  · exact mul_nonneg (le_of_lt hbase) h1s'

lemma numOK_init (c : ℚ) (hc : 0 < c) : NumOK c (initState c) :=
  ⟨le_of_lt hc, le_refl 0, le_refl c, by intro d hd; simp [initState] at hd⟩

lemma numOK_step (sigs : List Signal) (s L c : ℚ) (st : LoopState) (i : Nat)
    (hi : i < sigs.length) (hp : ∀ x ∈ sigs, 0 < x.price) (hc : 0 < c)
    (hs0 : 0 ≤ s) (hs1 : s ≤ 1)
    (hpos : 0 ≤ st.position) (h : NumOK c st) : NumOK c (stepFn sigs s L st i) := by
  obtain ⟨hcash, _, hhwm, hdd⟩ := h
  have hpr : 0 < (sigs.getD i default).price := base_price_pos sigs i hi hp
  -- cash and position after the transition are non-negative
  have hkey : 0 ≤ (stepFn sigs s L st i).cash ∧ 0 ≤ (stepFn sigs s L st i).position := by
    rcases nextCPT_cases sigs s L st i with hcs | ⟨hsig, hp0, hsh, hcs⟩ | ⟨hsig, hppos, hcs⟩
    · rw [stepFn_cash, stepFn_position, hcs]; exact ⟨hcash, hpos⟩
    · have hep : 0 < effPrice sigs s L i := effPrice_pos_of_buy sigs s L i hi hp hs0 hsig
      have hfloor : ratTrunc (st.cash / effPrice sigs s L i) = ⌊st.cash / effPrice sigs s L i⌋ := by
        unfold ratTrunc
        rw [if_pos (div_nonneg hcash (le_of_lt hep))]
      have hle : (ratTrunc (st.cash / effPrice sigs s L i) : ℚ) ≤ st.cash / effPrice sigs s L i := by
        rw [hfloor]; exact_mod_cast Int.floor_le _
      have hmul : (ratTrunc (st.cash / effPrice sigs s L i) : ℚ) * effPrice sigs s L i ≤ st.cash :=
        (le_div_iff₀ hep).mp hle
      have hsub : (0 : ℚ) ≤ st.cash - (ratTrunc (st.cash / effPrice sigs s L i) : ℚ) *
          effPrice sigs s L i := by linarith
      rw [stepFn_cash, stepFn_position, hcs]
      exact ⟨hsub, le_of_lt hsh⟩
    · have hep : 0 ≤ effPrice sigs s L i := effPrice_nonneg sigs s L i hi hp hs0 hs1
      have hmul : (0 : ℚ) ≤ (st.position : ℚ) * effPrice sigs s L i :=
        mul_nonneg (by exact_mod_cast le_of_lt hppos) hep
      have hadd : (0 : ℚ) ≤ st.cash + (st.position : ℚ) * effPrice sigs s L i :=
        add_nonneg hcash hmul
      rw [stepFn_cash, stepFn_position, hcs]
      exact ⟨hadd, le_refl 0⟩
  obtain ⟨hcash', hpos'⟩ := hkey
  -- the recorded equity is non-negative
  have heq : 0 ≤ (stepFn sigs s L st i).lastEquity := by
    rw [stepFn_lastEquity]
    split_ifs with hgt
    · exact add_nonneg hcash' (mul_nonneg (by exact_mod_cast le_of_lt hgt) (le_of_lt hpr))
    · simpa using hcash'
  have hhwm' : c ≤ (stepFn sigs s L st i).highWaterMark := by
    rw [stepFn_highWaterMark]; exact le_trans hhwm (le_max_left _ _)
  have hhwmpos : (0 : ℚ) < (stepFn sigs s L st i).highWaterMark := lt_of_lt_of_le hc hhwm'
  have hle : (stepFn sigs s L st i).lastEquity ≤ (stepFn sigs s L st i).highWaterMark := by
    rw [stepFn_highWaterMark]; exact le_max_right _ _
  refine ⟨hcash', hpos', hhwm', ?_⟩
  rw [stepFn_drawdowns]
  intro d hd
  rcases List.mem_append.mp hd with hmem | hmem
  · exact hdd d hmem
  · have hdval : d = ((stepFn sigs s L st i).highWaterMark - (stepFn sigs s L st i).lastEquity) /
        (stepFn sigs s L st i).highWaterMark * 100 := by
      simpa using hmem
    constructor
    · rw [hdval]
      apply mul_nonneg _ (by norm_num)
      exact div_nonneg (by linarith) (le_of_lt hhwmpos)
    · rw [hdval]
      have hq : ((stepFn sigs s L st i).highWaterMark - (stepFn sigs s L st i).lastEquity) /
          (stepFn sigs s L st i).highWaterMark ≤ 1 := by
        rw [div_le_one hhwmpos]; linarith
      nlinarith [hq]

lemma numOK_runUpTo (sigs : List Signal) (s L c : ℚ) (hp : ∀ x ∈ sigs, 0 < x.price)
    (hc : 0 < c) (hs0 : 0 ≤ s) (hs1 : s ≤ 1) :
    ∀ k, k ≤ sigs.length → NumOK c (runUpTo sigs s L c k) := by
  intro k
  induction k with
  | zero => intro _; exact numOK_init c hc
  | succ k ih =>
    intro hk
    have hklt : k < sigs.length := by omega
    have hprev := ih (le_of_lt hklt)
    rw [runUpTo_succ]
    exact numOK_step sigs s L c _ k hklt hp hc hs0 hs1 hprev.2.1 hprev

/-! ### Drawdown-series characterization (engine vs analyzer) -/

/-- Drawdown series generated from a high-water-mark seed `h` over a list of
equity values, following the common recurrence of the engine loop and of
`PerformanceMetrics::calculateMaxDrawdown`. -/
def ddList (h : ℚ) : List ℚ → List ℚ
  | [] => []
  | e :: es => (max h e - e) / max h e * 100 :: ddList (max h e) es

lemma ddList_concat (h : ℚ) (es : List ℚ) (e : ℚ) :
    ddList h (es ++ [e]) =
      ddList h es ++
        [(max (es.foldl max h) e - e) / max (es.foldl max h) e * 100] := by
  induction es generalizing h with
  | nil => simp [ddList]
  | cons a as ih => simp [ddList, ih (max h a)]

/-- Along any run the stored drawdown series is exactly `ddList` seeded at the
initial capital over the recorded equity values, and the high-water mark is
their running maximum seeded at the initial capital. -/
lemma runUpTo_dd_inv (sigs : List Signal) (s L c : ℚ) (k : Nat) :
    (runUpTo sigs s L c k).drawdowns =
      ddList c ((runUpTo sigs s L c k).equity.map EquityPoint.equity) ∧
    (runUpTo sigs s L c k).highWaterMark =
      ((runUpTo sigs s L c k).equity.map EquityPoint.equity).foldl max c := by
  induction k with
  | zero => exact ⟨rfl, rfl⟩
  | succ k ih =>
    obtain ⟨ihd, ihh⟩ := ih
    constructor
    · rw [runUpTo_succ, stepFn_drawdowns, stepFn_equity, stepFn_highWaterMark, ihd, ihh]
      rw [← runUpTo_succ, List.map_append]
      simp only [List.map_cons, List.map_nil]
      rw [ddList_concat]
    · rw [runUpTo_succ, stepFn_highWaterMark, stepFn_equity, ihh]
      rw [← runUpTo_succ, List.map_append]
      simp only [List.map_cons, List.map_nil, List.foldl_append, List.foldl_cons,
        List.foldl_nil]

lemma if_lt_eq_max (p v : ℚ) : (if p < v then v else p) = max p v := by
  rcases le_or_lt v p with h | h
  · rw [if_neg (not_lt.mpr h), max_eq_left h]
  · rw [if_pos h, max_eq_right (le_of_lt h)]

/-- The analyzer loop is a fold of `max` over the same drawdown series. -/
lemma mdGo_eq_foldl (vs : List ℚ) : ∀ p m, mdGo p m vs = (ddList p vs).foldl max m := by
  induction vs with
  | nil => intro p m; rfl
  | cons v vs ih =>
    intro p m
    have hstep : mdGo p m (v :: vs) =
        mdGo (max p v) (max m ((max p v - v) / max p v * 100)) vs := by
      show mdGo (if p < v then v else p)
          (max m (((if p < v then v else p) - v) / (if p < v then v else p) * 100)) vs = _
      rw [if_lt_eq_max]
    rw [hstep,
      show ddList p (v :: vs) = (max p v - v) / max p v * 100 :: ddList (max p v) vs from rfl,
      List.foldl_cons]
    exact ih _ _

/-- With zero slippage and zero latency, the first recorded equity equals the
initial capital: a first-step buy pays exactly the mark-to-market price. -/
lemma first_equity_eq_capital (sigs : List Signal) (c : ℚ) :
    (runUpTo sigs 0 0 c 1).lastEquity = c := by
  have h1 : runUpTo sigs 0 0 c 1 = stepFn sigs 0 0 (initState c) 0 := by
    rw [runUpTo_succ, runUpTo_zero]
  rcases nextCPT_cases sigs 0 0 (initState c) 0 with hc | ⟨hsig, hp0, hsh, hc⟩ | ⟨hsig, hp, hc⟩
  · rw [h1, stepFn_lastEquity, stepFn_cash, stepFn_position, hc]
    simp [initState]
  · have hep : effPrice sigs 0 0 0 = (sigs.getD 0 default).price := by
      rw [effPrice_def, if_pos hsig]
      unfold basePrice
      rw [if_neg (lt_irrefl 0)]
      ring
    rw [h1, stepFn_lastEquity, stepFn_cash, stepFn_position, hc]
    show (initState c).cash - _ * effPrice sigs 0 0 0 +
        (if 0 < ratTrunc ((initState c).cash / effPrice sigs 0 0 0) then
          (ratTrunc ((initState c).cash / effPrice sigs 0 0 0) : ℚ) * (sigs.getD 0 default).price
        else 0) = c
    rw [if_pos hsh, hep]
    simp [initState]
  · exact absurd hp (by simp [initState])

lemma equity_getD_zero (sigs : List Signal) (c : ℚ) (hne : sigs ≠ []) :
    ((runUpTo sigs 0 0 c sigs.length).equity.getD 0 default).equity = c := by
  have hlen : 0 < sigs.length := List.length_pos.mpr hne
  rw [runUpTo_equity_getD_stable sigs 0 0 c 0 default _ hlen]
  rw [runUpTo_equity_getD_last]
  exact first_equity_eq_capital sigs c

/-- Agreement of the engine's maximum drawdown with the analyzer's recomputation
when the first recorded equity equals the initial capital (zero slippage, zero
latency). -/
lemma maxdd_agree (sigs : List Signal) (c : ℚ) (hne : sigs ≠ []) :
    maxElem (runUpTo sigs 0 0 c sigs.length).drawdowns =
      calculateMaxDrawdown ((runUpTo sigs 0 0 c sigs.length).equity.map EquityPoint.equity) := by
  obtain ⟨hd, _⟩ := runUpTo_dd_inv sigs 0 0 c sigs.length
  have hlen : 0 < sigs.length := List.length_pos.mpr hne
  have heqlen : 0 < (runUpTo sigs 0 0 c sigs.length).equity.length := by
    rw [runUpTo_equity_length]; exact hlen
  obtain ⟨pt, rest, hpr⟩ :=
    List.exists_cons_of_ne_nil (List.ne_nil_of_length_pos heqlen)
  have hpt : pt.equity = c := by
    have h0 := equity_getD_zero sigs c hne
    rw [hpr] at h0
    simpa using h0
  rw [hd, hpr, List.map_cons, hpt]
  have hdd0 : ddList c (c :: rest.map EquityPoint.equity) =
      0 :: ddList c (rest.map EquityPoint.equity) := by
    show (max c c - c) / max c c * 100 :: ddList (max c c) _ = _
    simp
  rw [hdd0]
  show (0 :: ddList c (rest.map EquityPoint.equity)).foldl max
      ((0 :: ddList c (rest.map EquityPoint.equity)).headD 0) =
    mdGo c 0 (c :: rest.map EquityPoint.equity)
  rw [mdGo_eq_foldl, hdd0]
  simp

/-! ### Concrete scenarios -/

/-- Scenario of spec §8: prices `[100,100,110,110,90]`, signals `[0,1,1,0,0]`. -/
def sigsC4 : List Signal :=
  [⟨"t0", 100, 0⟩, ⟨"t1", 100, 1⟩, ⟨"t2", 110, 1⟩, ⟨"t3", 110, 0⟩, ⟨"t4", 90, 0⟩]

/-- Backtester after running the §8 scenario with capital 10000, slippage 0, latency 0. -/
def btC4 : Backtester :=
  ((Backtester.make 10000 0 0).loadSignals sigsC4).runBacktest

lemma btC4_eval :
    btC4 =
      ⟨10000, 11000, 0, 0, 0, sigsC4,
        [⟨"t0", 10000⟩, ⟨"t1", 10000⟩, ⟨"t2", 11000⟩, ⟨"t3", 11000⟩, ⟨"t4", 11000⟩],
        [⟨"t1", "BUY", 100, 100, 10000⟩, ⟨"t3", "SELL", 100, 110, 11000⟩],
        [0, 0, 0, 0, 0], [0, 0, 1 / 10, 0, 0]⟩ := by
  norm_num [btC4, sigsC4, Backtester.runBacktest, Backtester.loadSignals, Backtester.make,
    runUpTo, List.range_succ, stepFn, nextCPT, execTransition, effPrice, ratTrunc,
    initState, max_def, List.cons_ne_nil]

/-- Single-record buy scenario with slippage 1%: first equity drops below the
initial capital. -/
def sigsOne : List Signal := [⟨"t0", 100, 1⟩]

/-- Backtester after running `sigsOne` with capital 10000, slippage 1/100, latency 0. -/
def btOne : Backtester :=
  ((Backtester.make 10000 (1 / 100) 0).loadSignals sigsOne).runBacktest

lemma btOne_eval :
    btOne =
      ⟨10000, 1, 99, 1 / 100, 0, sigsOne,
        [⟨"t0", 9901⟩], [⟨"t0", "BUY", 99, 101, 9999⟩],
        [99 / 100], [-99 / 10000]⟩ := by
  norm_num [btOne, sigsOne, Backtester.runBacktest, Backtester.loadSignals, Backtester.make,
    runUpTo, List.range_succ, stepFn, nextCPT, execTransition, effPrice, ratTrunc,
    initState, max_def, List.cons_ne_nil]

/-- Insufficient-cash scenario of spec §8: capital 50, constant price 100, buy signal. -/
def sigsFlat : List Signal := [⟨"t0", 100, 1⟩, ⟨"t1", 100, 1⟩, ⟨"t2", 100, 1⟩]

/-- Backtester after running `sigsFlat` with capital 50, slippage 0, latency 0. -/
def btFlat : Backtester :=
  ((Backtester.make 50 0 0).loadSignals sigsFlat).runBacktest

lemma btFlat_eval :
    btFlat =
      ⟨50, 50, 0, 0, 0, sigsFlat,
        [⟨"t0", 50⟩, ⟨"t1", 50⟩, ⟨"t2", 50⟩], [], [0, 0, 0], [0, 0, 0]⟩ := by
  norm_num [btFlat, sigsFlat, Backtester.runBacktest, Backtester.loadSignals, Backtester.make,
    runUpTo, List.range_succ, stepFn, nextCPT, execTransition, effPrice, ratTrunc,
    initState, max_def, List.cons_ne_nil]

/-- Round-trip-then-rebuy scenario separating cash-proportional from
fixed-notional sizing: prices `[100,200,50]`, signals `[1,0,1]`. -/
def sigsRT : List Signal := [⟨"t0", 100, 1⟩, ⟨"t1", 200, 0⟩, ⟨"t2", 50, 1⟩]

/-- Backtester after running `sigsRT` with capital 10000, slippage 0, latency 0. -/
def btRT : Backtester :=
  ((Backtester.make 10000 0 0).loadSignals sigsRT).runBacktest

lemma btRT_eval :
    btRT =
      ⟨10000, 0, 400, 0, 0, sigsRT,
        [⟨"t0", 10000⟩, ⟨"t1", 20000⟩, ⟨"t2", 20000⟩],
        [⟨"t0", "BUY", 100, 100, 10000⟩, ⟨"t1", "SELL", 100, 200, 20000⟩,
          ⟨"t2", "BUY", 400, 50, 20000⟩],
        [0, 0, 0], [0, 1, 0]⟩ := by
  norm_num [btRT, sigsRT, Backtester.runBacktest, Backtester.loadSignals, Backtester.make,
    runUpTo, List.range_succ, stepFn, nextCPT, execTransition, effPrice, ratTrunc,
    initState, max_def, List.cons_ne_nil]

lemma simRT_eval :
    simulateTrades 0 0 sigsRT =
      [⟨"t0", "BUY", 100, 100, 10000⟩, ⟨"t1", "SELL", 100, 200, 20000⟩,
        ⟨"t2", "BUY", 200, 50, 10000⟩] := by
  norm_num [simulateTrades, sigsRT, List.range_succ, simStep, applyLatency, ratTrunc,
    List.cons_ne_nil]

/-- Backtester after running a single flat-signal record twice in a row
(capital 100, price 10, signal 0). -/
def btTwice : Backtester :=
  (((Backtester.make 100 0 0).loadSignals [⟨"t0", 10, 0⟩]).runBacktest).runBacktest

lemma btTwice_eval :
    btTwice =
      ⟨100, 100, 0, 0, 0, [⟨"t0", 10, 0⟩], [⟨"t0", 100⟩], [], [0], [0, 0]⟩ := by
  norm_num [btTwice, Backtester.runBacktest, Backtester.loadSignals, Backtester.make,
    runUpTo, List.range_succ, stepFn, nextCPT, execTransition, effPrice, ratTrunc,
    initState, max_def, List.cons_ne_nil]

/-! ### Helper lemmas about `runBacktest` field preservation -/

lemma runBacktest_m_signals (bt : Backtester) : bt.runBacktest.m_signals = bt.m_signals := by
  unfold Backtester.runBacktest; split_ifs <;> rfl

lemma runBacktest_m_slippage (bt : Backtester) : bt.runBacktest.m_slippage = bt.m_slippage := by
  unfold Backtester.runBacktest; split_ifs <;> rfl

lemma runBacktest_m_latency (bt : Backtester) : bt.runBacktest.m_latency = bt.m_latency := by
  unfold Backtester.runBacktest; split_ifs <;> rfl

lemma runBacktest_m_initialCapital (bt : Backtester) :
    bt.runBacktest.m_initialCapital = bt.m_initialCapital := by
  unfold Backtester.runBacktest; split_ifs <;> rfl

lemma runBacktest_m_trades (bt : Backtester) (h : bt.m_signals ≠ []) :
    bt.runBacktest.m_trades = (runUpTo bt.m_signals bt.m_slippage bt.m_latency
      bt.m_initialCapital bt.m_signals.length).trades := by
  rw [runBacktest_of_ne bt h]

lemma runBacktest_m_equity (bt : Backtester) (h : bt.m_signals ≠ []) :
    bt.runBacktest.m_equity = (runUpTo bt.m_signals bt.m_slippage bt.m_latency
      bt.m_initialCapital bt.m_signals.length).equity := by
  rw [runBacktest_of_ne bt h]

lemma runBacktest_m_drawdowns (bt : Backtester) (h : bt.m_signals ≠ []) :
    bt.runBacktest.m_drawdowns = (runUpTo bt.m_signals bt.m_slippage bt.m_latency
      bt.m_initialCapital bt.m_signals.length).drawdowns := by
  rw [runBacktest_of_ne bt h]

/-! ### Claim theorems -/

/-- C1 (corrected; counterexample): with slippage 1% and a buy on the very first
record, the engine's drawdown series (high-water mark seeded at the initial
capital) has maximum 99/100 while `calculateMaxDrawdown` over the same equity
values (peak seeded at the first equity value) returns 0, so the two disagree. -/
theorem maxdd_engine_ne_analyzer :
    maxElem btOne.m_drawdowns ≠
      calculateMaxDrawdown (btOne.m_equity.map EquityPoint.equity) := by
  rw [btOne_eval]
  show maxElem [99 / 100] ≠ calculateMaxDrawdown [(9901 : ℚ)]
  norm_num [maxElem, calculateMaxDrawdown, mdGo, max_def]

/-- C1 (amended): for every non-empty signal sequence with positive prices and
every initial capital C > 0, with slippage 0 and latency 0 the maximum of the
drawdown series produced by `runBacktest` equals `calculateMaxDrawdown` applied
to the equity values of the same run: with no friction the first equity value
equals the initial capital, so the two high-water-mark seeds coincide. -/
theorem maxdd_engine_eq_analyzer (sigs : List Signal) (c : ℚ) (hne : sigs ≠ [])
    (hp : ∀ x ∈ sigs, 0 < x.price) (hc : 0 < c) :
    maxElem ((((Backtester.make c 0 0).loadSignals sigs).runBacktest).m_drawdowns) =
      calculateMaxDrawdown
        ((((Backtester.make c 0 0).loadSignals sigs).runBacktest).m_equity.map
          EquityPoint.equity) := by
  have hbt : (((Backtester.make c 0 0).loadSignals sigs) : Backtester).m_signals ≠ [] := hne
  rw [runBacktest_m_drawdowns _ hbt, runBacktest_m_equity _ hbt]
  exact maxdd_agree sigs c hne

/-- C1 (witness): the amended agreement holds on the §8 scenario. -/
theorem maxdd_engine_eq_analyzer_witness :
    maxElem btC4.m_drawdowns = calculateMaxDrawdown (btC4.m_equity.map EquityPoint.equity) := by
  have h := maxdd_engine_eq_analyzer sigsC4 10000 (by simp [sigsC4])
    (by intro x hx; fin_cases hx <;> norm_num [sigsC4]) (by norm_num)
  exact h

/-- C2 (code bug, evaluated at the failing input): `runBacktest` clears
`m_equity`, `m_trades` and `m_drawdowns` but never `m_returns`, so after two
runs over one signal the stored return series has two entries while the equity
sequence has one — the spec's same-length invariant is violated by the code. -/
theorem returns_accumulate_across_runs :
    btTwice.m_returns.length = 2 ∧ btTwice.m_equity.length = 1 ∧
      btTwice.m_returns.length ≠ btTwice.m_equity.length := by
  rw [btTwice_eval]
  exact ⟨rfl, rfl, by decide⟩

/-- C3: at every step `i` of a run, the recorded equity equals the cash after
step `i` plus the position after step `i` times the unadjusted record price,
and the position is non-negative. -/
theorem equity_is_cash_plus_position (sigs : List Signal) (c s L : ℚ) (i : Nat)
    (hi : i < sigs.length) :
    ((((Backtester.make c s L).loadSignals sigs).runBacktest).m_equity.getD i default).equity =
      (runUpTo sigs s L c (i + 1)).cash +
        ((runUpTo sigs s L c (i + 1)).position : ℚ) * (sigs.getD i default).price ∧
    0 ≤ (runUpTo sigs s L c (i + 1)).position := by
  have hne : sigs ≠ [] := by intro h; rw [h] at hi; simp at hi
  have hbt : (((Backtester.make c s L).loadSignals sigs) : Backtester).m_signals ≠ [] := hne
  constructor
  · rw [runBacktest_m_equity _ hbt]
    simp only [Backtester.loadSignals, Backtester.make]
    rw [runUpTo_equity_getD_stable sigs s L c i default _ hi, runUpTo_equity_getD_last]
    show (runUpTo sigs s L c (i + 1)).lastEquity = _
    rw [runUpTo_lastEquity_eq]
    rcases lt_or_le 0 ((runUpTo sigs s L c (i + 1)).position) with hgt | hle
    · rw [if_pos hgt]
    · have h0 : (runUpTo sigs s L c (i + 1)).position = 0 :=
        le_antisymm hle (tradesOK_runUpTo sigs s L c (i + 1)).1
      rw [if_neg (not_lt.mpr hle), h0]
      simp
  · exact (tradesOK_runUpTo sigs s L c (i + 1)).1

/-- C3 (witness): the accounting identity at step 2 of the §8 scenario. -/
theorem equity_is_cash_plus_position_witness :
    ((((Backtester.make 10000 0 0).loadSignals sigsC4).runBacktest).m_equity.getD 2
        default).equity =
      (runUpTo sigsC4 0 0 10000 3).cash +
        ((runUpTo sigsC4 0 0 10000 3).position : ℚ) * (sigsC4.getD 2 default).price ∧
    0 ≤ (runUpTo sigsC4 0 0 10000 3).position := by
  have h := equity_is_cash_plus_position sigsC4 10000 0 0 2 (by norm_num [sigsC4])
  exact h

/-- C4: on the §8 scenario (capital 10000, no friction, prices
`[100,100,110,110,90]`, signals `[0,1,1,0,0]`) exactly two trades are recorded
— BUY 100 @ 100 then SELL 100 @ 110 — the final equity is 11000 and
`getResults` reports a 10% total return. -/
theorem scenario_buy_sell_ten_percent :
    btC4.m_trades = [⟨"t1", "BUY", 100, 100, 10000⟩, ⟨"t3", "SELL", 100, 110, 11000⟩] ∧
    (btC4.m_equity.getLastD default).equity = 11000 ∧
    btC4.getResults.finalReturn = 10 := by
  refine ⟨by rw [btC4_eval], by rw [btC4_eval]; rfl, ?_⟩
  rw [btC4_eval]
  norm_num [Backtester.getResults, List.cons_ne_nil]

/-- C5: in the trade log produced by `runBacktest` the side at index `k` is BUY
for even `k` and SELL for odd `k`; hence consecutive trades never share a side
and the first trade, if any, is a BUY. -/
theorem trade_sides_alternate (sigs : List Signal) (c s L : ℚ) :
    (∀ k, k < (((Backtester.make c s L).loadSignals sigs).runBacktest).m_trades.length →
      ((((Backtester.make c s L).loadSignals sigs).runBacktest).m_trades.getD k
          default).action = if k % 2 = 0 then "BUY" else "SELL") ∧
    (∀ k, k + 1 < (((Backtester.make c s L).loadSignals sigs).runBacktest).m_trades.length →
      ((((Backtester.make c s L).loadSignals sigs).runBacktest).m_trades.getD k
          default).action ≠
        ((((Backtester.make c s L).loadSignals sigs).runBacktest).m_trades.getD (k + 1)
          default).action) ∧
    (0 < (((Backtester.make c s L).loadSignals sigs).runBacktest).m_trades.length →
      ((((Backtester.make c s L).loadSignals sigs).runBacktest).m_trades.getD 0
          default).action = "BUY") := by
  by_cases hne : sigs = []
  · simp [Backtester.runBacktest, Backtester.loadSignals, Backtester.make, hne]
  · have hbt : (((Backtester.make c s L).loadSignals sigs) : Backtester).m_signals ≠ [] := hne
    have htr : (((Backtester.make c s L).loadSignals sigs).runBacktest).m_trades =
        (runUpTo sigs s L c sigs.length).trades := runBacktest_m_trades _ hbt
    obtain ⟨_, _, hact⟩ := tradesOK_runUpTo sigs s L c sigs.length
    rw [htr]
    refine ⟨hact, ?_, ?_⟩
    · intro k hk1
      rw [hact k (by omega), hact (k + 1) hk1]
      rcases Nat.mod_two_eq_zero_or_one k with h | h
      · rw [if_pos h, if_neg (by omega)]
        decide
      · rw [if_neg (by omega), if_pos (by omega)]
        decide
    · intro hlen
      rw [hact 0 hlen]
      rfl

/-- C5 (witness): on the §8 scenario the log has two trades and the first is a BUY. -/
theorem trade_sides_alternate_witness :
    0 < (((Backtester.make 10000 0 0).loadSignals sigsC4).runBacktest).m_trades.length ∧
    ((((Backtester.make 10000 0 0).loadSignals sigsC4).runBacktest).m_trades.getD 0
        default).action = "BUY" := by
  have hlen : 0 < (((Backtester.make 10000 0 0).loadSignals sigsC4).runBacktest).m_trades.length := by
    have h := btC4_eval
    rw [btC4] at h
    rw [h]
    decide
  exact ⟨hlen, (trade_sides_alternate sigsC4 10000 0 0).2.2 hlen⟩

/-- C6: the high-water mark is non-decreasing from each step to the next, and
with positive prices, positive initial capital and slippage in `[0,1]` every
recorded drawdown lies in `[0, 100]`. -/
theorem hwm_monotone_drawdown_bounded (sigs : List Signal) (c s L : ℚ)
    (hp : ∀ x ∈ sigs, 0 < x.price) (hc : 0 < c) (hs0 : 0 ≤ s) (hs1 : s ≤ 1) :
    (∀ k, (runUpTo sigs s L c k).highWaterMark ≤ (runUpTo sigs s L c (k + 1)).highWaterMark) ∧
    (∀ d ∈ (((Backtester.make c s L).loadSignals sigs).runBacktest).m_drawdowns,
      0 ≤ d ∧ d ≤ 100) := by
  constructor
  · intro k
    rw [runUpTo_succ, stepFn_highWaterMark]
    exact le_max_left _ _
  · by_cases hne : sigs = []
    · simp [Backtester.runBacktest, Backtester.loadSignals, Backtester.make, hne]
    · have hbt : (((Backtester.make c s L).loadSignals sigs) : Backtester).m_signals ≠ [] := hne
      have hdd : (((Backtester.make c s L).loadSignals sigs).runBacktest).m_drawdowns =
          (runUpTo sigs s L c sigs.length).drawdowns := runBacktest_m_drawdowns _ hbt
      rw [hdd]
      exact (numOK_runUpTo sigs s L c hp hc hs0 hs1 sigs.length (le_refl _)).2.2.2

/-- C6 (witness): instantiated on the §8 scenario. -/
theorem hwm_monotone_drawdown_bounded_witness :
    (∀ k, (runUpTo sigsC4 0 0 10000 k).highWaterMark ≤
      (runUpTo sigsC4 0 0 10000 (k + 1)).highWaterMark) ∧
    (∀ d ∈ (((Backtester.make 10000 0 0).loadSignals sigsC4).runBacktest).m_drawdowns,
      0 ≤ d ∧ d ≤ 100) :=
  hwm_monotone_drawdown_bounded sigsC4 10000 0 0
    (by intro x hx; fin_cases hx <;> norm_num [sigsC4]) (by norm_num) (le_refl 0) (by norm_num)

/-- C7: a buy transition with insufficient cash for one share records no trade
and leaves the position flat while still updating the tracked signal to 1; a
record whose signal equals the tracked signal leaves cash, position, trade log
and tracked signal untouched; and on the capital-50/price-100 scenario the
equity path stays flat at 50 with no trades. -/
theorem failed_buy_updates_signal :
    (∀ (sigs : List Signal) (s L : ℚ) (st : LoopState) (i : Nat),
      (sigs.getD i default).signal = 1 → st.currentSignal ≠ 1 → st.position = 0 →
      ratTrunc (st.cash / effPrice sigs s L i) = 0 →
      (stepFn sigs s L st i).trades = st.trades ∧ (stepFn sigs s L st i).position = 0 ∧
        (stepFn sigs s L st i).currentSignal = 1) ∧
    (∀ (sigs : List Signal) (s L : ℚ) (st : LoopState) (i : Nat),
      (sigs.getD i default).signal = st.currentSignal →
      (stepFn sigs s L st i).cash = st.cash ∧ (stepFn sigs s L st i).position = st.position ∧
        (stepFn sigs s L st i).trades = st.trades ∧
        (stepFn sigs s L st i).currentSignal = st.currentSignal) ∧
    (btFlat.m_trades = [] ∧ btFlat.m_position = 0 ∧
      btFlat.m_equity.map EquityPoint.equity = [50, 50, 50]) := by
  refine ⟨?_, ?_, ?_⟩
  · intro sigs s L st i hsig hcur hpos hfloor
    have hne : (sigs.getD i default).signal ≠ st.currentSignal := by
      rw [hsig]; exact fun h => hcur h.symm
    have hcpt : nextCPT sigs s L st i = (st.cash, st.position, st.trades) := by
      show (if (sigs.getD i default).signal ≠ st.currentSignal then _ else _) = _
      rw [if_pos hne]
      simp only [execTransition]
      rw [if_pos (show (sigs.getD i default).signal = 1 ∧ st.position = 0 from ⟨hsig, hpos⟩)]
      rw [hfloor]
      simp
    refine ⟨by rw [stepFn_trades, hcpt], ?_, ?_⟩
    · rw [stepFn_position, hcpt]; exact hpos
    · rw [stepFn_currentSignal, if_pos hne]; exact hsig
  · intro sigs s L st i hsig
    have hnn : ¬ (sigs.getD i default).signal ≠ st.currentSignal := fun h => h hsig
    have hcpt : nextCPT sigs s L st i = (st.cash, st.position, st.trades) := by
      show (if (sigs.getD i default).signal ≠ st.currentSignal then _ else _) = _
      rw [if_neg hnn]
    exact ⟨by rw [stepFn_cash, hcpt], by rw [stepFn_position, hcpt],
      by rw [stepFn_trades, hcpt], by rw [stepFn_currentSignal, if_neg hnn]⟩
  · exact ⟨by rw [btFlat_eval], by rw [btFlat_eval], by rw [btFlat_eval]; rfl⟩

/-- C7 (witness): the failed-buy branch applied at the first record of the
capital-50 scenario. -/
theorem failed_buy_updates_signal_witness :
    (stepFn sigsFlat 0 0 (initState 50) 0).trades = (initState 50).trades ∧
    (stepFn sigsFlat 0 0 (initState 50) 0).position = 0 ∧
    (stepFn sigsFlat 0 0 (initState 50) 0).currentSignal = 1 :=
  failed_buy_updates_signal.1 sigsFlat 0 0 (initState 50) 0 (by norm_num [sigsFlat])
    (by norm_num [initState]) rfl
    (by norm_num [initState, effPrice, sigsFlat, ratTrunc])

/-- C8: the ratio calculations return 0 on degenerate inputs — empty return
series or zero population standard deviation for Sharpe, empty series or no
negative return for Sortino — and `getResults` on an empty equity path is the
all-zero result with zero trades. -/
theorem degenerate_inputs_give_zero :
    (∀ r : ℝ, calculateSharpeRatio [] r = 0) ∧
    (∀ (rs : List ℝ) (r : ℝ), sharpeStdDev rs = 0 → calculateSharpeRatio rs r = 0) ∧
    (∀ r : ℝ, calculateSortinoRatio [] r = 0) ∧
    (∀ (rs : List ℝ) (r : ℝ), (∀ x ∈ rs, ¬ x < 0) → calculateSortinoRatio rs r = 0) ∧
    (∀ bt : Backtester, bt.m_equity = [] → bt.getResults = ⟨0, 0, 0, 0, 0⟩) := by
  refine ⟨?_, ?_, ?_, ?_, ?_⟩
  · intro r; simp [calculateSharpeRatio]
  · intro rs r h
    by_cases hrs : rs = []
    · simp [calculateSharpeRatio, hrs]
    · simp only [calculateSharpeRatio]
      rw [if_neg hrs, if_pos h]
  · intro r; simp [calculateSortinoRatio]
  · intro rs r h
    by_cases hrs : rs = []
    · simp [calculateSortinoRatio, hrs]
    · have hfil : rs.filter (fun x => decide (x < 0)) = [] := by
        rw [List.filter_eq_nil]
        intro a ha
        simpa using h a ha
      simp only [calculateSortinoRatio]
      rw [if_neg hrs]
      simp [hfil]
  · intro bt h
    simp [Backtester.getResults, h]

/-- C8 (witness): concrete degenerate inputs — empty series, the constant
series `[1,1]`, the non-negative series `[1,2]`, and a freshly constructed
backtester with an empty equity path. -/
theorem degenerate_inputs_give_zero_witness :
    calculateSharpeRatio [] 0 = 0 ∧
    (sharpeStdDev [1, 1] = 0 ∧ calculateSharpeRatio [1, 1] 0 = 0) ∧
    calculateSortinoRatio [] 0 = 0 ∧
    calculateSortinoRatio [1, 2] 0 = 0 ∧
    (Backtester.make 10000 0 0).getResults = ⟨0, 0, 0, 0, 0⟩ := by
  have hsd : sharpeStdDev [1, 1] = 0 := by
    norm_num [sharpeStdDev]
  exact ⟨degenerate_inputs_give_zero.1 0, ⟨hsd, degenerate_inputs_give_zero.2.1 [1, 1] 0 hsd⟩,
    degenerate_inputs_give_zero.2.2.1 0,
    degenerate_inputs_give_zero.2.2.2.1 [1, 2] 0 (by norm_num),
    degenerate_inputs_give_zero.2.2.2.2 _ rfl⟩

/-- C9: running the backtest a second time on the same object yields exactly the
same trade log and equity sequence as the first run (the run reads only the
signals and parameters, which it never modifies). -/
theorem second_run_identical (bt : Backtester) :
    (bt.runBacktest.runBacktest).m_trades = bt.runBacktest.m_trades ∧
    (bt.runBacktest.runBacktest).m_equity = bt.runBacktest.m_equity := by
  by_cases h : bt.m_signals = []
  · have hfix : bt.runBacktest = bt := by simp [Backtester.runBacktest, h]
    rw [hfix, hfix]
    exact ⟨rfl, rfl⟩
  · have h2 : bt.runBacktest.m_signals ≠ [] := by rw [runBacktest_m_signals]; exact h
    constructor
    · rw [runBacktest_m_trades _ h2, runBacktest_m_trades bt h, runBacktest_m_signals,
        runBacktest_m_slippage, runBacktest_m_latency, runBacktest_m_initialCapital]
    · rw [runBacktest_m_equity _ h2, runBacktest_m_equity bt h, runBacktest_m_signals,
        runBacktest_m_slippage, runBacktest_m_latency, runBacktest_m_initialCapital]

/-- C10: the engine sizes buys from the cash actually available while
`TradeSimulator::simulateTrades` always sizes `floor(10000 / buy_price)`; on
prices `[100,200,50]` with signals `[1,0,1]` and identical parameters the
engine's third trade buys 400 shares but the helper's buys 200, so the two
trade logs differ. -/
theorem engine_helper_sizing_diverge :
    btRT.m_trades.map Trade.shares = [100, 100, 400] ∧
    (simulateTrades 0 0 sigsRT).map Trade.shares = [100, 100, 200] ∧
    btRT.m_trades ≠ simulateTrades 0 0 sigsRT := by
  refine ⟨by rw [btRT_eval]; rfl, by rw [simRT_eval]; rfl, ?_⟩
  rw [btRT_eval, simRT_eval]
  simp

end SharpEdge
